import Mathlib

/-!
Verification development for the tetra3d scene-graph and glTF import code.

The Go source is shallowly embedded into Lean: loops become structural
recursions or folds, Go slices become lists, `float32`/`float64` values are
modelled as rationals, pointers become natural-number references into an
explicit heap, and fallible reads become `Except` values.  Functions that can
terminate the Go process (index-out-of-range, method call on a nil interface,
explicit abort) return `Option`, with `none` marking the abnormal termination.
-/

namespace Tetra3d

/-! ## Vertex weight retention (LoadGLTFData, weights/joints loop) -/

/-- Embedding of the bone weight/joint retention loop of `LoadGLTFData`:
for each attribute slot of a vertex, the (weight, bone index) entry is appended
to the vertex's `Weights`/`Bones` lists only when the weight is strictly
greater than zero, scanning the slots in order. -/
def retainWeights : List ℚ → List Nat → List ℚ × List Nat
  | w :: ws, b :: bs =>
    let r := retainWeights ws bs
    if w > 0 then (w :: r.1, b :: r.2) else r
  | _, _ => ([], [])

/-! ## Animation length (LoadGLTFData, animation channel loops) -/

/-- Target path of a glTF animation channel; `other` stands for any path
that the loader does not handle (skipped by the if/else-if chain). -/
inductive TRSPath where
  | translation
  | scale
  | rotation
  | other
deriving DecidableEq, Repr

/-- Whether the importer processes a channel with this target path. -/
def TRSPath.handled : TRSPath → Bool
  | .other => false
  | _ => true

/-- A decoded animation channel as seen by the length computation: its target
path and the keyframe input times read from the sampler input accessor. -/
structure ChannelDoc where
  path : TRSPath
  inputTimes : List ℚ
deriving DecidableEq, Repr

/-- Embedding of the running `animLength` update inside one channel:
`if float64(t) > animLength { animLength = float64(t) }` for each input time,
performed only for translation/scale/rotation channels. -/
def channelFoldLength (acc : ℚ) (ch : ChannelDoc) : ℚ :=
  if ch.path.handled then
    ch.inputTimes.foldl (fun a t => if t > a then t else a) acc
  else acc

/-- Embedding of the `anim.Length` computation of `LoadGLTFData`: `animLength`
starts at `0.0` and is threaded through every channel of the animation. -/
def animLength (channels : List ChannelDoc) : ℚ :=
  channels.foldl channelFoldLength 0

/-- All keyframe input times of the channels the importer handles
(translation/scale/rotation), in channel order. -/
def trsTimes (channels : List ChannelDoc) : List ℚ :=
  (channels.filter (fun ch => ch.path.handled)).foldr
    (fun ch acc => ch.inputTimes ++ acc) []

/-- The maximum of a list of keyframe times, `0` when there are none.  This
follows the specification's words ("the maximum keyframe input time …, 0 when
the animation has no keyframes"), for comparison with `animLength`. -/
def specMaxTime : List ℚ → ℚ
  | [] => 0
  | t :: rest => rest.foldl max t

/-! ## SkinRoot resolution (LoadGLTFData, skinned-model pass) -/

/-- The fields of a loaded node relevant to the SkinRoot walk: the `isBone`
flag and the parent back-reference (as an index into the object list,
`none` for a parentless node). -/
structure BoneNode where
  isBone : Bool
  parent : Option Nat
deriving DecidableEq, Repr

/-- The `isBone` flag of the node at index `i` of the object list. -/
def boneAt (ns : List BoneNode) (i : Nat) : Bool :=
  (ns.getD i ⟨false, none⟩).isBone

/-- The parent back-reference of the node at index `i` of the object list. -/
def parentOf (ns : List BoneNode) (i : Nat) : Option Nat :=
  (ns.getD i ⟨false, none⟩).parent

/-- Embedding of the SkinRoot loop of `LoadGLTFData`:
`for parent.IsBone() && parent.Parent() != nil { parent = parent.Parent() }`.
The walk starts at a joint index and climbs parent links; `fuel` bounds the
number of iterations (the Go loop would diverge on a cyclic parent chain, in
which case the fuel runs out and `none` is returned). -/
def skinRootWalk (ns : List BoneNode) : Nat → Nat → Option Nat
  | 0, _ => none
  | fuel + 1, i =>
    if boneAt ns i then
      match parentOf ns i with
      | some p => skinRootWalk ns fuel p
      | none => some i
    else some i

/-! ## Parent/child wiring (LoadGLTFData, the two node passes) -/

/-- A document node as consumed by the parent/child wiring: its name and the
child indices listed in the document. -/
structure DocNode where
  name : String
  children : List Nat
deriving DecidableEq, Repr

/-- Embedding of one `AddChildren` wiring loop over a node's child-index list.
Only `created` objects exist so far, so evaluating `objects[int(child)]` with
`child ≥ created` is an index-out-of-range panic, modelled as `none`.
`AddChildren` reparents the child, which on the parent map means setting the
child's parent entry to `i`. -/
def addChildEdges (i created : Nat) (cs : List Nat)
    (parents : List (Option Nat)) : Option (List (Option Nat)) :=
  match cs with
  | [] => some parents
  | c :: rest =>
    if c < created then addChildEdges i created rest (parents.set c (some i))
    else none

/-- First pass over the node list: the object for document node `i` is
appended to `objects` only after its own `AddChildren` loop has run, so while
node `i` is processed exactly `i` objects exist. -/
def pass1Go (rest : List DocNode) (i : Nat)
    (parents : List (Option Nat)) : Option (List (Option Nat)) :=
  match rest with
  | [] => some parents
  | n :: more =>
    match addChildEdges i i n.children parents with
    | none => none
    | some ps => pass1Go more (i + 1) ps

/-- Second pass over the node list ("Set up parenting"): all `total` objects
exist by now, and every node's child edges are wired again. -/
def pass2Go (rest : List DocNode) (i total : Nat)
    (parents : List (Option Nat)) : Option (List (Option Nat)) :=
  match rest with
  | [] => some parents
  | n :: more =>
    match addChildEdges i total n.children parents with
    | none => none
    | some ps => pass2Go more (i + 1) total ps

/-- Both wiring passes of `LoadGLTFData` in source order; `none` means that
the loading process panics before returning. -/
def wireNodes (nodes : List DocNode) : Option (List (Option Nat)) :=
  match pass1Go nodes 0 (List.replicate nodes.length none) with
  | none => none
  | some ps => pass2Go nodes 0 nodes.length ps

/-! ## Instance collection resolution (LoadGLTFData, t3dInstanceCollection__) -/

/-- An instance collection decoded from the scene extras
(`t3dCollections__`): object names, coordinate offset, dependent-library
path. -/
structure Collection where
  objects : List String
  offset : List ℚ
  path : String

/-- A dependent Library as relevant to instancing: the node names it can
resolve via `Library.FindNode`. -/
structure DepLibrary where
  nodeNames : List String

/-- Embedding of `Library.FindNode` on a dependent library. -/
def libFindNode (lib : DepLibrary) (nm : String) : Option String :=
  lib.nodeNames.find? (fun x => x == nm)

/-- Embedding of the local `findNode` closure of `LoadGLTFData`: a linear
scan of the loaded objects by name, returning nil (`none`) when no object
matches. -/
def findLoadedNode (loaded : List String) (nm : String) : Option String :=
  loaded.find? (fun x => x == nm)

/-- Embedding of one iteration of the instancing loop body for one clone
name.  `none` means the process aborts: in the empty-path branch the code
calls `.Clone()` on the nil `INode` returned by `findNode`, and in the
dependent-library branch it panics explicitly when
`DependentLibraryResolver` is nil.  `some none` means no clone was produced
(only a log line); `some (some nm)` means a clone of `nm` is added under the
instancing node. -/
def cloneStep (resolver : Option (String → Option DepLibrary))
    (loaded : List String) (colPath : String) (cloneName : String) :
    Option (Option String) :=
  if colPath = "" then
    match findLoadedNode loaded cloneName with
    | some nm => some (some nm)
    | none => none
  else
    match resolver with
    | none => none
    | some res =>
      match res (colPath.replace "//" "") with
      | some lib =>
        match libFindNode lib cloneName with
        | some nm => some (some nm)
        | none => some none
      | none => some none

/-- Embedding of the instancing loop over `collection.Objects` for one node
flagged with `t3dInstanceCollection__`. -/
def cloneSteps (resolver : Option (String → Option DepLibrary))
    (loaded : List String) (colPath : String) :
    List String → Option (List (Option String))
  | [] => some []
  | nm :: rest =>
    match cloneStep resolver loaded colPath nm with
    | none => none
    | some r =>
      match cloneSteps resolver loaded colPath rest with
      | none => none
      | some rs => some (r :: rs)

/-- Resolution of one node's instance collection, start to finish. -/
def resolveInstanceCollection (resolver : Option (String → Option DepLibrary))
    (loaded : List String) (col : Collection) : Option (List (Option String)) :=
  cloneSteps resolver loaded col.path col.objects

/-! ## Extras tag maps (LoadGLTFData, material/mesh/node extras loops) -/

/-- Embedding of `Tags.Set` on an association-list view of the Go tag map:
replace the value stored at an existing key, otherwise add the binding. -/
def tagSet (tags : List (String × α)) (k : String) (v : α) :
    List (String × α) :=
  if tags.any (fun kv => kv.1 == k) then
    tags.map (fun kv => if kv.1 == k then (k, v) else kv)
  else tags ++ [(k, v)]

/-- Whether an extras key belongs to the reserved vendor set: it both starts
with "t3d" and ends with "__". -/
def reservedKey (key : String) : Bool :=
  key.startsWith "t3d" && key.endsWith "__"

/-- Embedding of the extras tag loop run for materials, meshes and nodes:
`if !strings.HasPrefix(tagName, "t3d") || !strings.HasSuffix(tagName, "__")`
the binding is copied verbatim into the owning entity's tag map. -/
def applyExtraTags (tags : List (String × α)) (extras : List (String × α)) :
    List (String × α) :=
  extras.foldl
    (fun acc kv =>
      if !(kv.1.startsWith "t3d") || !(kv.1.endsWith "__") then
        tagSet acc kv.1 kv.2
      else acc)
    tags

/-! ## Import error discipline (LoadGLTFData, decode failure paths)

Every fallible read of `LoadGLTFData` is embedded as an `Except` value in the
decoded document, and each `if err != nil { return nil, err }` site is
embedded as a match arm producing `(none, some e)`; the successful final
return is `(some library, none)`. -/

/-- Error values produced by the decoder and the accessor readers. -/
abbrev Err := String

/-- An image entry: the `ReadBufferView` call and the `image.Decode` call,
each of which can fail. -/
structure ImageDoc where
  bufferRead : Except Err (List Nat)
  decodeImage : Except Err Nat

/-- One mesh primitive as the bundle of accessor reads the importer performs:
position (always), texture coordinates and normals (when the attribute is
present), the consecutive COLOR_n channels present, weights paired with
joints (when WEIGHTS_0 is present), and the index buffer. -/
structure PrimDoc where
  posRead : Except Err (List (ℚ × ℚ × ℚ))
  uvRead : Option (Except Err (List (ℚ × ℚ)))
  normalRead : Option (Except Err (List (ℚ × ℚ × ℚ)))
  colorReads : List (Except Err (List (ℚ × ℚ × ℚ × ℚ)))
  weightJointRead :
    Option (Except Err (List (List ℚ)) × Except Err (List (List Nat)))
  indexRead : Except Err (List Nat)
  materialName : Option String

/-- A document mesh: its name and primitives. -/
structure MeshDoc where
  name : String
  prims : List PrimDoc

/-- An animation channel as the importer reads it: the target path and the
sampler input/output accessor reads (performed only for handled paths). -/
structure ChannelReadDoc where
  path : TRSPath
  inputRead : Except Err (List ℚ)
  outputRead : Except Err (List (List ℚ))

/-- A document animation: its name and channels. -/
structure AnimDoc where
  name : String
  channels : List ChannelReadDoc

/-- A skin: the inverse-bind-matrices accessor read. -/
structure SkinDoc where
  ibmRead : Except Err (List (List ℚ))

/-- The decoded glTF document, with each buffer/accessor read the importer
will perform represented by its (possibly failing) result. -/
structure GLTFDoc where
  exportedTextures : Bool
  images : List ImageDoc
  materialNames : List String
  meshes : List MeshDoc
  anims : List AnimDoc
  skins : List SkinDoc
  sceneNames : List String

/-- The Library assembled by a successful import (names registered per
category, plus the number of decoded images). -/
structure Library where
  materials : List String
  meshes : List String
  animations : List String
  scenes : List String
  imageCount : Nat

/-- Reading one image: buffer view first, then image decode. -/
def readImage (img : ImageDoc) : Except Err Nat :=
  match img.bufferRead with
  | .error e => .error e
  | .ok _ =>
    match img.decodeImage with
    | .error e => .error e
    | .ok i => .ok i

/-- The image loop: the first failing read aborts the whole phase. -/
def readImages : List ImageDoc → Except Err (List Nat)
  | [] => .ok []
  | im :: rest =>
    match readImage im with
    | .error e => .error e
    | .ok i =>
      match readImages rest with
      | .error e => .error e
      | .ok is => .ok (i :: is)

/-- An optional attribute read: absent attributes are skipped, present ones
can fail. -/
def optRead (o : Option (Except Err α)) : Except Err Unit :=
  match o with
  | none => .ok ()
  | some (.error e) => .error e
  | some (.ok _) => .ok ()

/-- The vertex-color channel loop: channels are read in order until the
first failure. -/
def seqReads : List (Except Err α) → Except Err Unit
  | [] => .ok ()
  | .error e :: _ => .error e
  | .ok _ :: rest => seqReads rest

/-- The weights/joints pair: when WEIGHTS_0 is present the weights accessor
is read first, then the joints accessor. -/
def readWeightJoints
    (o : Option (Except Err (List (List ℚ)) × Except Err (List (List Nat)))) :
    Except Err Unit :=
  match o with
  | none => .ok ()
  | some wj =>
    match wj.1 with
    | .error e => .error e
    | .ok _ =>
      match wj.2 with
      | .error e => .error e
      | .ok _ => .ok ()

/-- One primitive, reads in source order: position, uv, normal, colors,
weights/joints, indices. The result is the number of triangle-list entries. -/
def processPrim (p : PrimDoc) : Except Err Nat :=
  match p.posRead with
  | .error e => .error e
  | .ok _ =>
    match optRead p.uvRead with
    | .error e => .error e
    | .ok _ =>
      match optRead p.normalRead with
      | .error e => .error e
      | .ok _ =>
        match seqReads p.colorReads with
        | .error e => .error e
        | .ok _ =>
          match readWeightJoints p.weightJointRead with
          | .error e => .error e
          | .ok _ =>
            match p.indexRead with
            | .error e => .error e
            | .ok idxs => .ok idxs.length

/-- The primitive loop of one mesh. -/
def processPrims : List PrimDoc → Except Err Nat
  | [] => .ok 0
  | p :: rest =>
    match processPrim p with
    | .error e => .error e
    | .ok _ =>
      match processPrims rest with
      | .error e => .error e
      | .ok n => .ok (n + 1)

/-- The mesh loop. -/
def processMeshes : List MeshDoc → Except Err Unit
  | [] => .ok ()
  | m :: rest =>
    match processPrims m.prims with
    | .error e => .error e
    | .ok _ => processMeshes rest

/-- One animation channel: for handled paths the sampler input accessor is
read, then the output accessor. -/
def readChannel (ch : ChannelReadDoc) : Except Err Unit :=
  if ch.path.handled then
    match ch.inputRead with
    | .error e => .error e
    | .ok _ =>
      match ch.outputRead with
      | .error e => .error e
      | .ok _ => .ok ()
  else .ok ()

/-- The channel loop of one animation. -/
def readChannels : List ChannelReadDoc → Except Err Unit
  | [] => .ok ()
  | ch :: rest =>
    match readChannel ch with
    | .error e => .error e
    | .ok _ => readChannels rest

/-- The animation loop. -/
def processAnims : List AnimDoc → Except Err Unit
  | [] => .ok ()
  | a :: rest =>
    match readChannels a.channels with
    | .error e => .error e
    | .ok _ => processAnims rest

/-- The skin loop: each skin's inverse-bind-matrices accessor is read. -/
def processSkins : List SkinDoc → Except Err Unit
  | [] => .ok ()
  | s :: rest =>
    match s.ibmRead with
    | .error e => .error e
    | .ok _ => processSkins rest

/-- Embedding of `LoadGLTFData`'s result discipline: the Go function returns
the pair `(*Library, error)`; decoding failure and every failing read return
`(nil, err)` at that site, and only the final return produces a Library. -/
def loadGLTFData (decoded : Except Err GLTFDoc) : Option Library × Option Err :=
  match decoded with
  | .error e => (none, some e)
  | .ok doc =>
    match (if doc.exportedTextures then readImages doc.images else .ok []) with
    | .error e => (none, some e)
    | .ok imgs =>
      match processMeshes doc.meshes with
      | .error e => (none, some e)
      | .ok _ =>
        match processAnims doc.anims with
        | .error e => (none, some e)
        | .ok _ =>
          match processSkins doc.skins with
          | .error e => (none, some e)
          | .ok _ =>
            (some ⟨doc.materialNames, doc.meshes.map MeshDoc.name,
              doc.anims.map AnimDoc.name, doc.sceneNames, imgs.length⟩, none)

/-! ## Scene cloning (Scene.Clone) -/

/-- Embedding of tetra3d's `Color`: an RGBA value struct. -/
structure Color where
  R : ℚ
  G : ℚ
  B : ℚ
  A : ℚ
deriving DecidableEq, Repr

/-- Embedding of `NewColor`. -/
def NewColor (r g b a : ℚ) : Color := ⟨r, g, b, a⟩

/-- Embedding of `Color.Clone`: `NewColor(color.R, color.G, color.B,
color.A)`. -/
def Color.clone (c : Color) : Color := NewColor c.R c.G c.B c.A

/-- A heap for the reference-typed parts of a `Scene`: the backing stores of
`FogRange` slices addressed by index, and a counter of allocated root-node
trees (`NewNodeBase` and `Node.Clone` each produce a fresh tree). -/
structure Heap where
  slices : List (List ℚ)
  nodeCount : Nat
deriving DecidableEq, Repr

/-- Reading one component of a slice through its heap reference. -/
def sliceReadH (h : Heap) (ref idx : Nat) : ℚ :=
  (h.slices.getD ref []).getD idx 0

/-- Writing one component of a slice through its heap reference. -/
def sliceWriteH (h : Heap) (ref idx : Nat) (v : ℚ) : Heap :=
  { h with slices := h.slices.set ref ((h.slices.getD ref []).set idx v) }

/-- Embedding of `Scene`: `Meshes` maps names to Mesh references (heap
identifiers shared across scenes), `FogColor` and `FogMode` are value fields,
and `FogRange` is a reference to a slice backing store in the heap. -/
structure SceneModel where
  name : String
  rootRef : Nat
  meshes : List (String × Nat)
  fogColor : Color
  fogMode : Nat
  fogRangeRef : Nat
deriving DecidableEq, Repr

/-- Embedding of `NewScene`: a fresh root node, an empty mesh map, black fog
color, and a freshly allocated `FogRange` slice `[0, 1]`. -/
def newScene (h : Heap) (name : String) : SceneModel × Heap :=
  (⟨name, h.nodeCount, [], NewColor 0 0 0 0, 0, h.slices.length⟩,
    ⟨h.slices ++ [[0, 1]], h.nodeCount + 1⟩)

/-- Embedding of `Scene.Clone`: build a new scene via `NewScene`, copy the
`Meshes` map entry by entry (sharing the same Mesh references), replace the
root with a deep clone (a fresh node tree), clone `FogColor` by value, copy
`FogMode`, and write the two `FogRange` components of the original into the
clone's own backing store. -/
def cloneScene (h : Heap) (sc : SceneModel) : SceneModel × Heap :=
  let p := newScene h sc.name
  let h1 := p.2
  let ns1 : SceneModel := { p.1 with meshes := sc.meshes }
  let ns2 : SceneModel := { ns1 with rootRef := h1.nodeCount }
  let h2 : Heap := { h1 with nodeCount := h1.nodeCount + 1 }
  let ns3 : SceneModel :=
    { ns2 with fogColor := sc.fogColor.clone, fogMode := sc.fogMode }
  let h3 := sliceWriteH h2 ns3.fogRangeRef 0 (sliceReadH h2 sc.fogRangeRef 0)
  let h4 := sliceWriteH h3 ns3.fogRangeRef 1 (sliceReadH h3 sc.fogRangeRef 1)
  (ns3, h4)

/-- Concrete heap used to instantiate the `Scene.Clone` theorem. -/
def c10Heap : Heap := ⟨[[5, 9]], 4⟩

/-- Concrete scene (FogRange slice 0 of `c10Heap`) used to instantiate the
`Scene.Clone` theorem. -/
def c10Scene : SceneModel := ⟨"level", 2, [("cube", 7)], ⟨1, 0, 0, 1⟩, 3, 0⟩

/-! ## Lazy world matrices (scene-graph transform state)

Modelled from the spec: the Node implementation (`SetLocal…`, `WorldMatrix`,
the cached world matrix, the dirty flag and its subtree propagation) is not
among the provided source files; the definitions below follow the spec's
description in sections 3, 4.1 and 8.  Nodes form an indexed family whose
parent links point to earlier indices (the rooted-tree invariant, represented
by a topological numbering); transform values live in an arbitrary monoid
`M`, standing for 4x4 matrices under multiplication (the composed
position/scale/rotation local matrix is a single monoid element, and each
`SetLocalPosition/Scale/Rotation` call is a write of that element). -/

/-- Modelled from the spec: per-node transform state — parent back-reference,
local matrix, cached world matrix, dirty flag. -/
structure WorldState (M : Type) where
  par : List (Option Nat)
  localM : List M
  cacheM : List M
  dirty : List Bool

/-- The parent index stored for node `i` (`none` when out of range or a
root). -/
def parAt (par : List (Option Nat)) (i : Nat) : Option Nat :=
  par.getD i none

/-- Modelled from the spec: whether node `a` is an ancestor of node `j` or
`j` itself, following parent links upward; `fuel` bounds the climb. -/
def hasAncestor (par : List (Option Nat)) : Nat → Nat → Nat → Bool
  | 0, _, _ => false
  | fuel + 1, a, j =>
    j == a ||
      (match parAt par j with
       | some p => hasAncestor par fuel a p
       | none => false)

/-- The mathematical world matrix of node `i`: the product of the local
matrices along the ancestor chain, with the identity as the root's parent
matrix. -/
def pureWorld [Monoid M] (par : List (Option Nat)) (locals : List M) :
    Nat → Nat → M
  | 0, _ => 1
  | fuel + 1, i =>
    (match parAt par i with
     | some p => pureWorld par locals fuel p
     | none => 1) * locals.getD i 1

/-- The world matrix of node `i` in state `st`, with enough fuel to climb any
well-founded parent chain. -/
def nodeWorld [Monoid M] (st : WorldState M) (i : Nat) : M :=
  pureWorld st.par st.localM (st.par.length + 1) i

/-- Modelled from the spec: the subtree dirty-mark traversal — each node `j`
(numbered from `j0`) is marked dirty when `a` is an ancestor-or-self of
`j`. -/
def markDirty (par : List (Option Nat)) (fuel a : Nat) :
    Nat → List Bool → List Bool
  | _, [] => []
  | j, b :: rest =>
    (b || hasAncestor par fuel a j) :: markDirty par fuel a (j + 1) rest

/-- Modelled from the spec: `SetLocalPosition/Scale/Rotation` — an O(1) write
of the node's local matrix plus a dirty mark of the whole owned subtree, so
that every descendant's next world-matrix read recomputes. -/
def setLocal [Monoid M] (st : WorldState M) (i : Nat) (m : M) : WorldState M :=
  { st with
    localM := st.localM.set i m
    dirty := markDirty st.par st.par.length i 0 st.dirty }

/-- Modelled from the spec: `WorldMatrix()` — if the node is dirty, recompute
as the parent's `WorldMatrix()` times the local matrix (identity parent for a
root), cache the product, clear the dirty bit; otherwise return the cached
value.  `fuel` bounds the recursion along parent links. -/
def worldRead [Monoid M] : Nat → WorldState M → Nat → M × WorldState M
  | 0, st, i => (st.cacheM.getD i 1, st)
  | fuel + 1, st, i =>
    if st.dirty.getD i true then
      let pr : M × WorldState M :=
        match parAt st.par i with
        | some p => worldRead fuel st p
        | none => (1, st)
      let w := pr.1 * st.localM.getD i 1
      (w, { pr.2 with cacheM := List.set pr.2.cacheM i w,
                      dirty := List.set pr.2.dirty i false })
    else (st.cacheM.getD i 1, st)

/-- One scene-graph interaction: a local transform write on a node, or a
world-matrix read (whose cache update is kept). -/
inductive GraphOp (M : Type) where
  | write (i : Nat) (m : M)
  | read (i : Nat)

/-- Applying one interaction to the state. -/
def applyOp [Monoid M] (st : WorldState M) : GraphOp M → WorldState M
  | .write i m => setLocal st i m
  | .read i => (worldRead (st.par.length + 1) st i).2

/-- Applying a finite sequence of interactions. -/
def runOps [Monoid M] (st : WorldState M) : List (GraphOp M) → WorldState M
  | [] => st
  | op :: rest => runOps (applyOp st op) rest

/-- The freshly built graph for tree shape `par` and initial local
transforms: caches unset (identity) and every node dirty. -/
def initState [Monoid M] (par : List (Option Nat)) (locals : List M) :
    WorldState M :=
  ⟨par, locals, List.replicate par.length 1, List.replicate par.length true⟩

/-- The tree invariant on parent links: every stored parent index points to
an earlier node (a rooted forest under a topological numbering). -/
def ParWF (par : List (Option Nat)) : Prop :=
  ∀ i p, parAt par i = some p → p < i

/-- Bounded boolean check for `ParWF`. -/
def parWFb (par : List (Option Nat)) : Bool :=
  (List.range par.length).all
    (fun i =>
      match parAt par i with
      | some p => decide (p < i)
      | none => true)

/-- Well-formedness of a transform state: the tree invariant plus matching
field lengths. -/
def StWF [Monoid M] (st : WorldState M) : Prop :=
  ParWF st.par ∧ st.localM.length = st.par.length ∧
    st.cacheM.length = st.par.length ∧ st.dirty.length = st.par.length

/-- The lazy-cache invariant: every clean node's cached matrix is its true
world matrix. -/
def CacheInv [Monoid M] (st : WorldState M) : Prop :=
  ∀ j, st.dirty.getD j true = false → st.cacheM.getD j 1 = nodeWorld st j

end Tetra3d

namespace Tetra3d

/-! ## Theorems: vertex weight retention (C5) -/

/-- C5: for every vertex of an imported mesh primitive carrying weight/joint
attributes, exactly the (bone index, weight) entries whose weight is strictly
greater than 0 are kept in the vertex's `Weights` and `Bones` lists, in their
original attribute order; entries with weight 0 or less are dropped. -/
theorem c5_positive_weights_retained (ws : List ℚ) (bs : List Nat) :
    retainWeights ws bs = ((ws.zip bs).filter (fun p => p.1 > 0)).unzip := by
  induction ws generalizing bs with
  | nil => cases bs <;> simp [retainWeights]
  | cons w ws ih =>
    cases bs with
    | nil => simp [retainWeights]
    | cons b bs =>
      by_cases h : w > 0
      · simp [retainWeights, h, ih, List.unzip_cons]
      · simp [retainWeights, h, ih]

/-! ## Theorems: animation length (C9) -/

theorem foldl_step_eq_max (acc : ℚ) (ts : List ℚ) :
    ts.foldl (fun a t => if t > a then t else a) acc = ts.foldl max acc := by
  induction ts generalizing acc with
  | nil => rfl
  | cons t ts ih =>
    simp only [List.foldl_cons, ih]
    congr 1
    by_cases h : t > acc
    · simp [h, max_eq_right (le_of_lt h)]
    · simp [h, max_eq_left (le_of_not_lt h)]

theorem foldl_max_assoc (a b : ℚ) (l : List ℚ) :
    l.foldl max (max a b) = max a (l.foldl max b) := by
  induction l generalizing b with
  | nil => rfl
  | cons c l ih => simp only [List.foldl_cons, max_assoc, ih]

theorem trsTimes_cons (ch : ChannelDoc) (rest : List ChannelDoc) :
    trsTimes (ch :: rest) =
      (if ch.path.handled then ch.inputTimes else []) ++ trsTimes rest := by
  by_cases h : ch.path.handled
  · simp [trsTimes, List.filter_cons, h]
  · simp [trsTimes, List.filter_cons, h]

theorem animLength_eq_foldl_max (channels : List Tetra3d.ChannelDoc) (acc : ℚ) :
    channels.foldl channelFoldLength acc = (trsTimes channels).foldl max acc := by
  induction channels generalizing acc with
  | nil => rfl
  | cons ch rest ih =>
    rw [List.foldl_cons, trsTimes_cons, List.foldl_append]
    by_cases h : ch.path.handled
    · simp only [channelFoldLength, h, if_true, ih, foldl_step_eq_max]
    · simp only [channelFoldLength, h, Bool.false_eq_true, if_false, ih,
        List.foldl_nil]

/-- C9 counterexample: for an animation whose single translation channel has
one keyframe at time `-1`, the imported `Length` is `0`, not the maximum
keyframe input time `-1`. -/
theorem c9_counterexample :
    animLength [⟨.translation, [-1]⟩] ≠
      specMaxTime (trsTimes [⟨.translation, [-1]⟩]) := by
  decide

/-- C9 (amended): `Animation.Length` after import equals the maximum of `0`
and the maximum keyframe input time over all position, scale, and rotation
tracks of all channels; in particular it equals `0` when the animation has no
keyframes, and equals the maximum keyframe time whenever some keyframe time is
non-negative (as valid glTF input requires). -/
theorem c9_length_is_clamped_max (channels : List ChannelDoc) :
    animLength channels = max 0 (specMaxTime (trsTimes channels)) := by
  unfold animLength
  rw [animLength_eq_foldl_max]
  cases h : trsTimes channels with
  | nil => simp [specMaxTime]
  | cons t rest =>
    simp only [specMaxTime, List.foldl_cons]
    have := foldl_max_assoc 0 t rest
    simpa using this

/-! ## Theorems: SkinRoot resolution (C4) -/

/-- C4 counterexample: a skinned model whose joint is a parentless bone keeps
that bone as its `SkinRoot` — the final `SkinRoot` is itself a bone, so the
walk does not always stop at a non-bone ancestor. -/
theorem c4_counterexample :
    skinRootWalk [⟨true, none⟩] 1 0 = some 0 ∧ boneAt [⟨true, none⟩] 0 = true := by
  decide

/-- C4 (amended): the `SkinRoot` is the node reached by walking up the
ancestor chain from a joint for as long as the current node is a bone and has
a parent; whenever the walk terminates, the resulting node is either not a
bone or a bone with no parent.  It is guaranteed not to be a bone only when
the bone chain is rooted under a non-bone ancestor. -/
theorem c4_skinroot_walk_exit (ns : List BoneNode) (fuel i r : Nat)
    (h : skinRootWalk ns fuel i = some r) :
    boneAt ns r = false ∨ parentOf ns r = none := by
  induction fuel generalizing i with
  | zero => simp [skinRootWalk] at h
  | succ fuel ih =>
    simp only [skinRootWalk] at h
    by_cases hb : boneAt ns i
    · rw [if_pos hb] at h
      cases hp : parentOf ns i with
      | some p =>
        rw [hp] at h
        exact ih p h
      | none =>
        rw [hp] at h
        cases h
        exact Or.inr hp
    · rw [if_neg hb] at h
      cases h
      exact Or.inl (by simpa using hb)

/-- C4 witness: on a two-node chain (node 1 a bone parented to non-bone node
0), the walk from the joint terminates and the amended exit condition holds at
the result. -/
theorem c4_skinroot_walk_exit_witness :
    skinRootWalk [⟨false, none⟩, ⟨true, some 0⟩] 2 1 = some 0 ∧
      (boneAt [⟨false, none⟩, ⟨true, some 0⟩] 0 = false ∨
        parentOf [⟨false, none⟩, ⟨true, some 0⟩] 0 = none) :=
  ⟨by decide, c4_skinroot_walk_exit [⟨false, none⟩, ⟨true, some 0⟩] 2 1 0 (by decide)⟩

/-! ## Theorems: parent/child wiring (C1) -/

/-- C1: the claim says the two passes make the wiring independent of node
order, but the first pass already evaluates `objects[int(child)]` while the
slice holds only the objects created so far.  On a two-node document whose
first node lists the second as a child, the first pass indexes out of range
and the import panics (`wireNodes = none`); the second pass alone — the
wiring the claim and the code's own comment describe — would wire the edge
correctly. -/
theorem c1_forward_child_reference :
    wireNodes [⟨"A", [1]⟩, ⟨"B", []⟩] = none ∧
      pass2Go [⟨"A", [1]⟩, ⟨"B", []⟩] 0 2 (List.replicate 2 none) =
        some [none, some 0] := by
  decide

/-! ## Theorems: instance collections (C3, C6) -/

/-- C3: for a node whose instance collection has an empty dependent-library
path, an object name that resolves to no loaded node does not leave the
reference inert — `findNode` returns nil and the code calls `.Clone()` on the
nil `INode`, a runtime panic (`none`), so the import does not complete. -/
theorem c3_unresolved_local_reference_panics :
    resolveInstanceCollection none ["Cube", "Lamp"]
      ⟨["Ghost"], [0, 0, 0], ""⟩ = none := by
  decide

/-- C6 counterexample: a collection with a non-empty dependent-library path
but an empty object list completes normally even though
`DependentLibraryResolver` is nil — the panic sits inside the loop over
`collection.Objects`, so it is never reached. -/
theorem c6_counterexample :
    resolveInstanceCollection none ["Cube"]
      ⟨[], [0, 0, 0], "../assets.blend"⟩ = some [] := by
  decide

/-- C6 (amended): for every node whose instance collection carries a
non-empty dependent-library path and lists at least one object name, a nil
`DependentLibraryResolver` makes the import abort fatally (an unrecoverable
panic) on the first listed object, rather than returning a recoverable error
or continuing. -/
theorem c6_missing_resolver_aborts (loaded : List String) (col : Collection)
    (hpath : col.path ≠ "") (hobj : col.objects ≠ []) :
    resolveInstanceCollection none loaded col = none := by
  obtain ⟨nm, rest, hcons⟩ := List.exists_cons_of_ne_nil hobj
  unfold resolveInstanceCollection
  rw [hcons]
  simp [cloneSteps, cloneStep, hpath]

/-- C6 witness: a concrete collection with path "../assets.blend" and one
object name aborts when no resolver is configured. -/
theorem c6_missing_resolver_aborts_witness :
    ("../assets.blend" : String) ≠ "" ∧ (["Tree"] : List String) ≠ [] ∧
      resolveInstanceCollection none ["Cube"]
        ⟨["Tree"], [0, 0, 0], "../assets.blend"⟩ = none :=
  ⟨by decide, by decide,
    c6_missing_resolver_aborts ["Cube"] ⟨["Tree"], [0, 0, 0], "../assets.blend"⟩
      (by decide) (by decide)⟩

/-! ## Theorems: extras tag maps (C7) -/

theorem tagSet_of_not_mem (tags : List (String × α)) (k : String) (v : α)
    (h : tags.any (fun kv => kv.1 == k) = false) :
    tagSet tags k v = tags ++ [(k, v)] := by
  simp [tagSet, h]

theorem applyExtraTags_eq_append_filter (extras acc : List (String × α))
    (hnd : (extras.map Prod.fst).Nodup)
    (hdis : ∀ kv ∈ extras, acc.any (fun t => t.1 == kv.1) = false) :
    applyExtraTags acc extras =
      acc ++ extras.filter (fun kv => !(reservedKey kv.1)) := by
  induction extras generalizing acc with
  | nil => simp [applyExtraTags]
  | cons kv rest ih =>
    have hcond : (!(kv.1.startsWith "t3d") || !(kv.1.endsWith "__")) =
        !(reservedKey kv.1) := by
      simp [reservedKey]
    cases hres : reservedKey kv.1 with
    | true =>
      have hskip : applyExtraTags acc (kv :: rest) = applyExtraTags acc rest := by
        simp only [applyExtraTags, List.foldl_cons]
        rw [if_neg (by rw [hcond, hres]; simp)]
      rw [hskip, ih acc (by simpa using hnd.of_cons)
        (fun t ht => hdis t (List.mem_cons_of_mem kv ht))]
      simp [List.filter_cons, hres]
    | false =>
      have hstep : applyExtraTags acc (kv :: rest) =
          applyExtraTags (acc ++ [(kv.1, kv.2)]) rest := by
        simp only [applyExtraTags, List.foldl_cons]
        rw [if_pos (by rw [hcond, hres]; rfl), tagSet_of_not_mem acc kv.1 kv.2
          (hdis kv (List.mem_cons_self kv rest))]
      have hnd' : (rest.map Prod.fst).Nodup := by simpa using hnd.of_cons
      have hhd : kv.1 ∉ rest.map Prod.fst := by
        have h := hnd
        simp only [List.map_cons, List.nodup_cons] at h
        exact h.1
      have hdis' : ∀ t ∈ rest, ((acc ++ [(kv.1, kv.2)]).any
          (fun s => s.1 == t.1)) = false := by
        intro t ht
        have h1 := hdis t (List.mem_cons_of_mem kv ht)
        have h2 : (kv.1 == t.1) = false := by
          rw [beq_eq_false_iff_ne]
          intro hk
          exact hhd (hk ▸ List.mem_map_of_mem Prod.fst ht)
        simp [List.any_append, h1, h2]
      rw [hstep, ih (acc ++ [(kv.1, kv.2)]) hnd' hdis']
      simp [List.filter_cons, hres, List.append_assoc]

/-- C7: for every extras map attached to a document node, mesh or material, a
key/value pair is stored verbatim in the owning entity's tag map exactly when
the key is outside the reserved vendor set (keys that both start with "t3d"
and end with "__"); reserved keys never appear in the tag map. -/
theorem c7_extras_tag_filter (extras : List (String × α))
    (hnd : (extras.map Prod.fst).Nodup) (k : String) (v : α) :
    ((k, v) ∈ applyExtraTags [] extras ↔
      ((k, v) ∈ extras ∧ reservedKey k = false)) := by
  rw [applyExtraTags_eq_append_filter extras [] hnd (fun kv _ => rfl)]
  simp [List.mem_filter]

/-- C7 witness: in a two-binding extras map, the game tag "hp" is stored
verbatim while the reserved key is not, at concrete inputs. -/
theorem c7_extras_tag_filter_witness :
    ([("hp", (3 : ℤ)), ("t3dVisible__", 1)].map Prod.fst).Nodup ∧
      ((("hp", (3 : ℤ)) ∈ applyExtraTags [] [("hp", 3), ("t3dVisible__", 1)]) ↔
        ((("hp", (3 : ℤ)) ∈ [("hp", 3), ("t3dVisible__", 1)]) ∧
          reservedKey "hp" = false)) :=
  ⟨by decide, c7_extras_tag_filter [("hp", 3), ("t3dVisible__", 1)] (by decide) "hp" 3⟩

/-! ## Theorems: import error discipline (C2) -/

/-- C2: import is all-or-nothing with respect to structural decode failures:
for every input, `LoadGLTFData` returns either a Library with a nil error or
a nil Library with a non-nil error — a partially built Library is never
returned alongside an error. -/
theorem c2_no_partial_library (d : Except Err GLTFDoc) :
    (∃ lib, loadGLTFData d = (some lib, none)) ∨
      (∃ e, loadGLTFData d = (none, some e)) := by
  cases d with
  | error e => exact Or.inr ⟨e, rfl⟩
  | ok doc =>
    simp only [loadGLTFData]
    split
    · exact Or.inr ⟨_, rfl⟩
    · split
      · exact Or.inr ⟨_, rfl⟩
      · split
        · exact Or.inr ⟨_, rfl⟩
        · split
          · exact Or.inr ⟨_, rfl⟩
          · exact Or.inl ⟨_, rfl⟩

/-! ## List helpers shared by the heap-based theorems -/

theorem getD_append_left (l l2 : List α) (n : Nat) (d : α)
    (h : n < l.length) : (l ++ l2).getD n d = l.getD n d := by
  induction l generalizing n with
  | nil => simp at h
  | cons x xs ih =>
    cases n with
    | zero => rfl
    | succ n => simpa [List.getD] using ih n (by simp at h; omega)

theorem getD_concat_self (l : List α) (x : α) (d : α) :
    (l ++ [x]).getD l.length d = x := by
  induction l with
  | nil => rfl
  | cons y ys ih => simp only [List.cons_append, List.length_cons, List.getD]; exact ih

theorem set_concat_self (l : List α) (x y : α) :
    (l ++ [x]).set l.length y = l ++ [y] := by
  induction l with
  | nil => rfl
  | cons z zs ih => simp [List.set, ih]

theorem getD_set_ne (l : List α) (i j : Nat) (x : α) (d : α) (h : i ≠ j) :
    (l.set i x).getD j d = l.getD j d := by
  induction l generalizing i j with
  | nil => simp [List.set]
  | cons y ys ih =>
    cases i with
    | zero =>
      cases j with
      | zero => exact absurd rfl h
      | succ j => simp [List.set, List.getD]
    | succ i =>
      cases j with
      | zero => simp [List.set, List.getD]
      | succ j =>
        simpa [List.set, List.getD] using ih i j (fun hh => h (by rw [hh]))

/-! ## Theorems: scene cloning (C10) -/

theorem cloneScene_fst (h : Heap) (sc : SceneModel) :
    (cloneScene h sc).1 = ⟨sc.name, h.nodeCount + 1, sc.meshes,
      sc.fogColor, sc.fogMode, h.slices.length⟩ := rfl

theorem cloneScene_slices (h : Heap) (sc : SceneModel)
    (href : sc.fogRangeRef < h.slices.length) :
    (cloneScene h sc).2.slices =
      h.slices ++ [[sliceReadH h sc.fogRangeRef 0,
        sliceReadH h sc.fogRangeRef 1]] := by
  simp only [cloneScene, newScene, sliceWriteH, sliceReadH]
  rw [getD_append_left _ _ _ _ href, getD_concat_self, set_concat_self,
    getD_append_left _ _ _ _ href, getD_concat_self, set_concat_self]
  rfl

/-- C10: `Scene.Clone` shares the Mesh references of the original under the
same names, value-copies the fog/environment state into fresh storage, and
gives the clone its own `FogRange` backing store: the clone's environment
values equal the original's right after cloning, the original's `FogRange`
readings are untouched by the clone operation, and writing any component of
the clone's `FogRange` never changes the original's. -/
theorem c10_scene_clone (h : Heap) (sc : SceneModel) (idx : Nat) (v : ℚ)
    (href : sc.fogRangeRef < h.slices.length) :
    (cloneScene h sc).1.meshes = sc.meshes ∧
    (cloneScene h sc).1.fogColor = sc.fogColor ∧
    (cloneScene h sc).1.fogMode = sc.fogMode ∧
    (cloneScene h sc).1.fogRangeRef ≠ sc.fogRangeRef ∧
    sliceReadH (cloneScene h sc).2 (cloneScene h sc).1.fogRangeRef 0 =
      sliceReadH h sc.fogRangeRef 0 ∧
    sliceReadH (cloneScene h sc).2 (cloneScene h sc).1.fogRangeRef 1 =
      sliceReadH h sc.fogRangeRef 1 ∧
    sliceReadH (cloneScene h sc).2 sc.fogRangeRef 0 =
      sliceReadH h sc.fogRangeRef 0 ∧
    sliceReadH (cloneScene h sc).2 sc.fogRangeRef 1 =
      sliceReadH h sc.fogRangeRef 1 ∧
    sliceReadH (sliceWriteH (cloneScene h sc).2
        (cloneScene h sc).1.fogRangeRef idx v) sc.fogRangeRef 0 =
      sliceReadH (cloneScene h sc).2 sc.fogRangeRef 0 ∧
    sliceReadH (sliceWriteH (cloneScene h sc).2
        (cloneScene h sc).1.fogRangeRef idx v) sc.fogRangeRef 1 =
      sliceReadH (cloneScene h sc).2 sc.fogRangeRef 1 := by
  have hne : h.slices.length ≠ sc.fogRangeRef := (Nat.ne_of_lt href).symm
  have hsl := cloneScene_slices h sc href
  refine ⟨rfl, rfl, rfl, hne, ?_, ?_, ?_, ?_, ?_, ?_⟩
  · simp only [cloneScene_fst, sliceReadH, hsl]
    rw [getD_concat_self]
    rfl
  · simp only [cloneScene_fst, sliceReadH, hsl]
    rw [getD_concat_self]
    rfl
  · simp only [sliceReadH, hsl]
    rw [getD_append_left _ _ _ _ href]
  · simp only [sliceReadH, hsl]
    rw [getD_append_left _ _ _ _ href]
  · simp only [cloneScene_fst, sliceReadH, sliceWriteH]
    rw [getD_set_ne _ _ _ _ _ hne]
  · simp only [cloneScene_fst, sliceReadH, sliceWriteH]
    rw [getD_set_ne _ _ _ _ _ hne]

/-- C10 witness: the clone theorem instantiated on the concrete heap and
scene, with the write applied at component 0 with value 42. -/
theorem c10_scene_clone_witness :
    c10Scene.fogRangeRef < c10Heap.slices.length ∧
      ((cloneScene c10Heap c10Scene).1.meshes = c10Scene.meshes ∧
      (cloneScene c10Heap c10Scene).1.fogColor = c10Scene.fogColor ∧
      (cloneScene c10Heap c10Scene).1.fogMode = c10Scene.fogMode ∧
      (cloneScene c10Heap c10Scene).1.fogRangeRef ≠ c10Scene.fogRangeRef ∧
      sliceReadH (cloneScene c10Heap c10Scene).2
          (cloneScene c10Heap c10Scene).1.fogRangeRef 0 =
        sliceReadH c10Heap c10Scene.fogRangeRef 0 ∧
      sliceReadH (cloneScene c10Heap c10Scene).2
          (cloneScene c10Heap c10Scene).1.fogRangeRef 1 =
        sliceReadH c10Heap c10Scene.fogRangeRef 1 ∧
      sliceReadH (cloneScene c10Heap c10Scene).2 c10Scene.fogRangeRef 0 =
        sliceReadH c10Heap c10Scene.fogRangeRef 0 ∧
      sliceReadH (cloneScene c10Heap c10Scene).2 c10Scene.fogRangeRef 1 =
        sliceReadH c10Heap c10Scene.fogRangeRef 1 ∧
      sliceReadH (sliceWriteH (cloneScene c10Heap c10Scene).2
          (cloneScene c10Heap c10Scene).1.fogRangeRef 0 42)
          c10Scene.fogRangeRef 0 =
        sliceReadH (cloneScene c10Heap c10Scene).2 c10Scene.fogRangeRef 0 ∧
      sliceReadH (sliceWriteH (cloneScene c10Heap c10Scene).2
          (cloneScene c10Heap c10Scene).1.fogRangeRef 0 42)
          c10Scene.fogRangeRef 1 =
        sliceReadH (cloneScene c10Heap c10Scene).2 c10Scene.fogRangeRef 1) :=
  ⟨by decide, c10_scene_clone c10Heap c10Scene 0 42 (by decide)⟩

/-! ## Theorems: lazy world matrices (C8) -/

theorem getD_eq_default_of_le (l : List α) (n : Nat) (d : α)
    (h : l.length ≤ n) : l.getD n d = d := by
  induction l generalizing n with
  | nil => cases n <;> rfl
  | cons x xs ih =>
    cases n with
    | zero => simp at h
    | succ n =>
      simp only [List.getD, List.length_cons] at *
      exact ih n (by omega)

theorem getD_set_self (l : List α) (i : Nat) (x : α) (d : α)
    (h : i < l.length) : (l.set i x).getD i d = x := by
  induction l generalizing i with
  | nil => simp at h
  | cons y ys ih =>
    cases i with
    | zero => rfl
    | succ i =>
      simp only [List.set, List.getD, List.length_cons] at *
      exact ih i (by omega)

theorem set_eq_self_of_le (l : List α) (n : Nat) (x : α)
    (h : l.length ≤ n) : l.set n x = l := by
  induction l generalizing n with
  | nil => rfl
  | cons y ys ih =>
    cases n with
    | zero => simp at h
    | succ n =>
      simp only [List.set, List.length_cons] at *
      rw [ih n (by omega)]

theorem getD_replicate_self (n j : Nat) (a : α) :
    (List.replicate n a).getD j a = a := by
  induction n generalizing j with
  | zero => cases j <;> rfl
  | succ n ih =>
    cases j with
    | zero => rfl
    | succ j => simp only [List.replicate, List.getD] at *; exact ih j

theorem parAt_some_lt_length (par : List (Option Nat)) (i p : Nat)
    (h : parAt par i = some p) : i < par.length := by
  by_contra hh
  rw [parAt, getD_eq_default_of_le _ _ _ (by omega)] at h
  cases h

theorem pureWorld_fuel_eq [Monoid M] (par : List (Option Nat))
    (locals : List M) (hwf : ParWF par) :
    ∀ i f g, min i par.length < f → min i par.length < g →
      pureWorld par locals f i = pureWorld par locals g i := by
  intro i
  induction i using Nat.strong_induction_on with
  | _ i ih =>
    intro f g hf hg
    match f, g with
    | f + 1, g + 1 =>
      simp only [pureWorld]
      congr 1
      cases hp : parAt par i with
      | none => rfl
      | some p =>
        have hpi : p < i := hwf i p hp
        have hil : i < par.length := parAt_some_lt_length par i p hp
        exact ih p hpi f g (by omega) (by omega)

theorem hasAncestor_fuel_eq (par : List (Option Nat)) (hwf : ParWF par) :
    ∀ j f g a, min j par.length < f → min j par.length < g →
      hasAncestor par f a j = hasAncestor par g a j := by
  intro j
  induction j using Nat.strong_induction_on with
  | _ j ih =>
    intro f g a hf hg
    match f, g with
    | f + 1, g + 1 =>
      simp only [hasAncestor]
      congr 1
      cases hp : parAt par j with
      | none => rfl
      | some p =>
        have hpj : p < j := hwf j p hp
        have hjl : j < par.length := parAt_some_lt_length par j p hp
        exact ih p hpj f g a (by omega) (by omega)

theorem pureWorld_set_not_anc [Monoid M] (par : List (Option Nat))
    (locals : List M) (a : Nat) (m : M) :
    ∀ f j, hasAncestor par f a j = false →
      pureWorld par (locals.set a m) f j = pureWorld par locals f j := by
  intro f
  induction f with
  | zero => intro j _; rfl
  | succ f ih =>
    intro j h
    simp only [hasAncestor, Bool.or_eq_false_iff] at h
    obtain ⟨hja, hrest⟩ := h
    have hne : a ≠ j := by
      intro hh
      subst hh
      simp at hja
    simp only [pureWorld]
    rw [getD_set_ne _ _ _ _ _ hne]
    congr 1
    cases hp : parAt par j with
    | none => rfl
    | some p =>
      rw [hp] at hrest
      exact ih p hrest

theorem markDirty_length (par : List (Option Nat)) (fuel a : Nat) :
    ∀ (l : List Bool) (j0 : Nat),
      (markDirty par fuel a j0 l).length = l.length := by
  intro l
  induction l with
  | nil => intro j0; rfl
  | cons b rest ih => intro j0; simp [markDirty, ih]

theorem getD_markDirty (par : List (Option Nat)) (fuel a : Nat) :
    ∀ (l : List Bool) (j0 k : Nat),
      (markDirty par fuel a j0 l).getD k true =
        (l.getD k true ||
          (decide (k < l.length) && hasAncestor par fuel a (j0 + k))) := by
  intro l
  induction l with
  | nil =>
    intro j0 k
    simp [markDirty, List.getD]
  | cons b rest ih =>
    intro j0 k
    cases k with
    | zero => simp [markDirty, List.getD]
    | succ k =>
      simp only [markDirty, List.getD, List.length_cons, List.get?_cons_succ]
      have harith : j0 + 1 + k = j0 + (k + 1) := by omega
      have hdec : decide (k < rest.length) = decide (k + 1 < rest.length + 1) := by
        rcases Nat.lt_or_ge k rest.length with hlt | hge
        · rw [decide_eq_true hlt, decide_eq_true (by omega)]
        · rw [decide_eq_false (by omega), decide_eq_false (by omega)]
      have := ih (j0 + 1) k
      simp only [List.getD] at this
      rw [this, harith, hdec]

theorem setLocal_par [Monoid M] (st : WorldState M) (i : Nat) (m : M) :
    (setLocal st i m).par = st.par := rfl

theorem setLocal_StWF [Monoid M] (st : WorldState M) (i : Nat) (m : M)
    (hst : StWF st) : StWF (setLocal st i m) := by
  obtain ⟨hwf, hl, hc, hd⟩ := hst
  refine ⟨hwf, ?_, hc, ?_⟩
  · simp [setLocal, hl]
  · simp [setLocal, markDirty_length, hd]

theorem nodeWorld_congr [Monoid M] (st st' : WorldState M)
    (hp : st'.par = st.par) (hl : st'.localM = st.localM) (j : Nat) :
    nodeWorld st' j = nodeWorld st j := by
  unfold nodeWorld
  rw [hp, hl]

theorem setLocal_CacheInv [Monoid M] (st : WorldState M) (i : Nat) (m : M)
    (hst : StWF st) (hinv : CacheInv st) : CacheInv (setLocal st i m) := by
  intro j hj
  have hdl : st.dirty.length = st.par.length := hst.2.2.2
  simp only [setLocal] at hj
  rw [getD_markDirty] at hj
  rw [Bool.or_eq_false_iff] at hj
  obtain ⟨hj1, hj2⟩ := hj
  have hjlen : j < st.dirty.length := by
    by_contra hh
    rw [getD_eq_default_of_le _ _ _ (by omega)] at hj1
    cases hj1
  have hanc : hasAncestor st.par st.par.length i j = false := by
    rw [decide_eq_true hjlen, Bool.true_and, Nat.zero_add] at hj2
    exact hj2
  have hanc1 : hasAncestor st.par (st.par.length + 1) i j = false := by
    rw [← hasAncestor_fuel_eq st.par hst.1 j st.par.length (st.par.length + 1) i
      (by omega) (by omega)]
    exact hanc
  have hcache := hinv j hj1
  show st.cacheM.getD j 1 = nodeWorld (setLocal st i m) j
  rw [hcache]
  show nodeWorld st j =
    pureWorld st.par (st.localM.set i m) (st.par.length + 1) j
  unfold nodeWorld
  rw [pureWorld_set_not_anc st.par st.localM i m (st.par.length + 1) j hanc1]

theorem finishRead_inv [Monoid M] (st0 base : WorldState M) (i : Nat) (w : M)
    (hpar : base.par = st0.par) (hloc : base.localM = st0.localM)
    (hbs : StWF base) (hbi : CacheInv base) (hw : w = nodeWorld st0 i) :
    StWF (WorldState.mk base.par base.localM (List.set base.cacheM i w)
        (List.set base.dirty i false)) ∧
      CacheInv (WorldState.mk base.par base.localM (List.set base.cacheM i w)
        (List.set base.dirty i false)) := by
  obtain ⟨hwf, hl, hc, hd⟩ := hbs
  constructor
  · exact ⟨hwf, hl, by simp [hc], by simp [hd]⟩
  · intro j hj
    have hnw : nodeWorld (WorldState.mk base.par base.localM
        (List.set base.cacheM i w) (List.set base.dirty i false)) j =
        nodeWorld st0 j :=
      nodeWorld_congr st0 _ hpar hloc j
    rw [hnw]
    show (List.set base.cacheM i w).getD j 1 = nodeWorld st0 j
    have hj' : (List.set base.dirty i false).getD j true = false := hj
    by_cases hji : j = i
    · subst hji
      by_cases hlen : j < base.dirty.length
      · have hclen : j < base.cacheM.length := by omega
        rw [getD_set_self _ _ _ _ hclen, hw]
      · exfalso
        rw [set_eq_self_of_le _ _ _ (by omega),
          getD_eq_default_of_le _ _ _ (by omega)] at hj'
        exact Bool.noConfusion hj'
    · have hji' : i ≠ j := fun hh => hji hh.symm
      rw [getD_set_ne _ _ _ _ _ hji']
      rw [getD_set_ne _ _ _ _ _ hji'] at hj'
      rw [hbi j hj']
      exact nodeWorld_congr st0 base hpar hloc j

theorem nodeWorld_root_step [Monoid M] (st : WorldState M) (i : Nat)
    (hp : parAt st.par i = none) :
    nodeWorld st i = 1 * st.localM.getD i 1 := by
  unfold nodeWorld
  simp only [pureWorld, hp]

theorem nodeWorld_parent_step [Monoid M] (st : WorldState M) (i p : Nat)
    (hwf : ParWF st.par) (hp : parAt st.par i = some p) :
    nodeWorld st i = nodeWorld st p * st.localM.getD i 1 := by
  have h1 := hwf i p hp
  have h2 := parAt_some_lt_length st.par i p hp
  have hstep : nodeWorld st i =
      pureWorld st.par st.localM st.par.length p * st.localM.getD i 1 := by
    unfold nodeWorld
    simp only [pureWorld, hp]
  rw [hstep]
  unfold nodeWorld
  congr 1
  exact pureWorld_fuel_eq st.par st.localM hwf p st.par.length
    (st.par.length + 1) (by omega) (by omega)

theorem worldRead_correct [Monoid M] :
    ∀ (fuel : Nat) (st : WorldState M) (i : Nat), StWF st → CacheInv st →
      min i st.par.length < fuel →
      (worldRead fuel st i).1 = nodeWorld st i ∧
        (worldRead fuel st i).2.par = st.par ∧
        (worldRead fuel st i).2.localM = st.localM ∧
        StWF (worldRead fuel st i).2 ∧ CacheInv (worldRead fuel st i).2 := by
  intro fuel
  induction fuel with
  | zero =>
    intro st i _ _ hf
    exact absurd hf (by omega)
  | succ fuel ih =>
    intro st i hst hinv hf
    by_cases hd : st.dirty.getD i true = true
    · cases hp : parAt st.par i with
      | none =>
        have hw : (1 : M) * st.localM.getD i 1 = nodeWorld st i :=
          (nodeWorld_root_step st i hp).symm
        have hred : worldRead (fuel + 1) st i =
            ((1 : M) * st.localM.getD i 1,
              { st with
                  cacheM := List.set st.cacheM i ((1 : M) * st.localM.getD i 1),
                  dirty := List.set st.dirty i false }) := by
          simp only [worldRead]
          rw [if_pos hd]
          simp only [hp]
        rw [hred]
        exact ⟨hw, rfl, rfl,
          (finishRead_inv st st i _ rfl rfl hst hinv hw).1,
          (finishRead_inv st st i _ rfl rfl hst hinv hw).2⟩
      | some p =>
        have hplt : p < i := hst.1 i p hp
        have hil : i < st.par.length := parAt_some_lt_length st.par i p hp
        obtain ⟨ih1, ih2, ih3, ih4, ih5⟩ := ih st p hst hinv (by omega)
        have hw : (worldRead fuel st p).1 * st.localM.getD i 1 =
            nodeWorld st i := by
          rw [ih1, nodeWorld_parent_step st i p hst.1 hp]
        have hred : worldRead (fuel + 1) st i =
            ((worldRead fuel st p).1 * st.localM.getD i 1,
              { (worldRead fuel st p).2 with
                  cacheM := List.set (worldRead fuel st p).2.cacheM i
                    ((worldRead fuel st p).1 * st.localM.getD i 1),
                  dirty := List.set (worldRead fuel st p).2.dirty i false }) := by
          simp only [worldRead]
          rw [if_pos hd]
          simp only [hp]
        rw [hred]
        exact ⟨hw, ih2, ih3,
          (finishRead_inv st (worldRead fuel st p).2 i _ ih2 ih3 ih4 ih5 hw).1,
          (finishRead_inv st (worldRead fuel st p).2 i _ ih2 ih3 ih4 ih5 hw).2⟩
    · have hdf : st.dirty.getD i true = false := by
        cases hdd : st.dirty.getD i true
        · rfl
        · exact absurd hdd hd
      have hred : worldRead (fuel + 1) st i = (st.cacheM.getD i 1, st) := by
        simp only [worldRead]
        rw [if_neg hd]
      rw [hred]
      exact ⟨hinv i hdf, rfl, rfl, hst, hinv⟩

theorem runOps_inv [Monoid M] (ops : List (GraphOp M)) :
    ∀ st : WorldState M, StWF st → CacheInv st →
      (runOps st ops).par = st.par ∧ StWF (runOps st ops) ∧
        CacheInv (runOps st ops) := by
  induction ops with
  | nil => intro st h1 h2; exact ⟨rfl, h1, h2⟩
  | cons op rest ih =>
    intro st h1 h2
    cases op with
    | write i m =>
      obtain ⟨a, b, c⟩ := ih (setLocal st i m) (setLocal_StWF st i m h1)
        (setLocal_CacheInv st i m h1 h2)
      exact ⟨a, b, c⟩
    | read i =>
      obtain ⟨_, hpar, hloc, hs, hc⟩ :=
        worldRead_correct (st.par.length + 1) st i h1 h2 (by omega)
      obtain ⟨a, b, c⟩ := ih ((worldRead (st.par.length + 1) st i).2) hs hc
      exact ⟨a.trans hpar, b, c⟩

theorem initState_inv [Monoid M] (par : List (Option Nat)) (locals : List M)
    (hwf : ParWF par) (hlen : locals.length = par.length) :
    StWF (initState par locals) ∧ CacheInv (initState par locals) := by
  constructor
  · exact ⟨hwf, hlen, by simp [initState], by simp [initState]⟩
  · intro j hj
    have hrep : (List.replicate par.length true).getD j true = true :=
      getD_replicate_self par.length j true
    rw [show (initState par locals : WorldState M).dirty =
      List.replicate par.length true from rfl, hrep] at hj
    exact Bool.noConfusion hj

theorem parWFb_sound (par : List (Option Nat)) (h : parWFb par = true) :
    ParWF par := by
  intro i p hp
  have hil : i < par.length := parAt_some_lt_length par i p hp
  have hall := List.all_eq_true.mp h i (List.mem_range.mpr hil)
  simp only [hp] at hall
  exact of_decide_eq_true hall

/-- C8 (spec-modelled): for every node `i` in a well-formed graph and after
any finite sequence of local-transform writes and world-matrix reads anywhere
in the tree, reading `i`'s world matrix returns the parent's world matrix
multiplied by `i`'s local matrix (with the identity as the root's parent
matrix), with no explicit flush or recompute call required between the writes
and the read. -/
theorem c8_world_matrix {M : Type} [Monoid M] (par : List (Option Nat))
    (locals : List M) (ops : List (GraphOp M)) (i : Nat)
    (hwf : ParWF par) (hlen : locals.length = par.length) :
    (worldRead ((runOps (initState par locals) ops).par.length + 1)
        (runOps (initState par locals) ops) i).1 =
      (match parAt (runOps (initState par locals) ops).par i with
       | some p =>
         (worldRead ((runOps (initState par locals) ops).par.length + 1)
            (runOps (initState par locals) ops) p).1
       | none => 1) *
        (runOps (initState par locals) ops).localM.getD i 1 := by
  obtain ⟨hsw, hci⟩ := initState_inv par locals hwf hlen
  obtain ⟨hpar, hstw, hinv⟩ := runOps_inv ops (initState par locals) hsw hci
  obtain ⟨l1, _, _, _, _⟩ := worldRead_correct
    ((runOps (initState par locals) ops).par.length + 1)
    (runOps (initState par locals) ops) i hstw hinv (by omega)
  rw [l1]
  cases hp : parAt (runOps (initState par locals) ops).par i with
  | none =>
    show nodeWorld (runOps (initState par locals) ops) i =
      1 * (runOps (initState par locals) ops).localM.getD i 1
    exact nodeWorld_root_step _ i hp
  | some p =>
    obtain ⟨l2, _, _, _, _⟩ := worldRead_correct
      ((runOps (initState par locals) ops).par.length + 1)
      (runOps (initState par locals) ops) p hstw hinv (by omega)
    show nodeWorld (runOps (initState par locals) ops) i =
      (worldRead ((runOps (initState par locals) ops).par.length + 1)
        (runOps (initState par locals) ops) p).1 *
        (runOps (initState par locals) ops).localM.getD i 1
    rw [l2]
    exact nodeWorld_parent_step _ i p hstw.1 hp

/-- C8 witness: a two-node chain (node 1 parented to node 0) over the monoid
of integers under multiplication; after writing node 0's local value and
reading node 1, reading node 1 again returns the parent's reading times its
local value. -/
theorem c8_world_matrix_witness :
    parWFb [none, some 0] = true ∧
      ([(2 : ℤ), 3] : List ℤ).length = ([none, some 0] : List (Option Nat)).length ∧
      (worldRead ((runOps (initState [none, some 0] [(2 : ℤ), 3])
            [GraphOp.write 0 5, GraphOp.read 1]).par.length + 1)
          (runOps (initState [none, some 0] [(2 : ℤ), 3])
            [GraphOp.write 0 5, GraphOp.read 1]) 1).1 =
        (match parAt (runOps (initState [none, some 0] [(2 : ℤ), 3])
            [GraphOp.write 0 5, GraphOp.read 1]).par 1 with
         | some p =>
           (worldRead ((runOps (initState [none, some 0] [(2 : ℤ), 3])
                [GraphOp.write 0 5, GraphOp.read 1]).par.length + 1)
              (runOps (initState [none, some 0] [(2 : ℤ), 3])
                [GraphOp.write 0 5, GraphOp.read 1]) p).1
         | none => 1) *
          (runOps (initState [none, some 0] [(2 : ℤ), 3])
            [GraphOp.write 0 5, GraphOp.read 1]).localM.getD 1 1 :=
  ⟨by decide, rfl,
    c8_world_matrix [none, some 0] [(2 : ℤ), 3]
      [GraphOp.write 0 5, GraphOp.read 1] 1
      (parWFb_sound [none, some 0] (by decide)) rfl⟩

end Tetra3d
